import Mathlib

/-!
Verification of the ghforeach repository-batch tool.

The definitions below are a shallow embedding of the Go sources
(internal/ghforeach/repositoryhandler.go, current revision; and
internal/ghforeach/ghforeach.go).  External collaborators (the GitHub
listing API, the git clone operation, the OS process runner, the regexp
engine and the file system) are modelled as explicit oracle parameters,
exactly at the call boundaries the Go code uses.
-/

namespace Ghforeach

/-- A GitHub repository as consumed by the pipeline: name, topic strings and
clone URL (fields of github.Repository that the code reads). -/
structure Repository where
  name : String
  topics : List String
  cloneURL : String
deriving Repr, DecidableEq

/-- A compiled regular expression, abstracted to its MatchString behaviour
(the regexp engine is an external collaborator). -/
structure Regexp where
  matchString : String → Bool

/-- Result record produced per processed repository
(struct executionResult in repositoryhandler.go). The Error field of the Go
struct holds a Go error value; we model it by the error message. -/
structure executionResult where
  Path : String
  Command : String
  Stdout : String
  Stderr : String
  Error : Option String
deriving Repr, DecidableEq

/-- Output format constants (ConsoleOutputFormat = iota, JsonOutputFormat). -/
def ConsoleOutputFormat : Nat := 0

/-- JsonOutputFormat = 1. -/
def JsonOutputFormat : Nat := 1

/-- The RepositoryExecutor configuration struct.  The zap logger is
side-effect-only and carries no data the pipeline reads, so it is not a
field here; the github client is modelled by its optional bearer token.
nameSet and topicSet are Go map[string]struct\x7b\x7d values used only for
membership, modelled as lists queried with contains (none models a nil map). -/
structure RepositoryExecutor where
  client : Option String := none
  authUser : Option String := none
  authToken : Option String := none
  nameRegexp : Option Regexp := none
  nameSet : Option (List String) := none
  topicRegexp : Option Regexp := none
  topicSet : Option (List String) := none
  shellPath : String := "/bin/sh"
  overwrite : Bool := false
  cleanup : Bool := false
  tmpDir : String := "tmp"
  concurrency : Int := 1
  outputFormat : Nat := ConsoleOutputFormat
  org : Option String := none
  user : Option String := none

/-- Fourth check of matchRepo: if topicSet is non-nil, pass iff some topic is
a member (the Go for-loop with break computes exactly List.any); otherwise
fall through to the final return true. -/
def matchRepoTopicSetCheck (rh : RepositoryExecutor) (repo : Repository) : Bool :=
  match rh.topicSet with
  | some s => if !(repo.topics.any (fun t => s.contains t)) then false else true
  | none => true

/-- Third check of matchRepo: if topicRegexp is non-nil, pass iff some topic
matches the regexp, then continue with the topicSet check. -/
def matchRepoTopicRegexpCheck (rh : RepositoryExecutor) (repo : Repository) : Bool :=
  match rh.topicRegexp with
  | some re =>
    if !(repo.topics.any (fun t => re.matchString t)) then false
    else matchRepoTopicSetCheck rh repo
  | none => matchRepoTopicSetCheck rh repo

/-- Second check of matchRepo: if nameSet is non-nil, pass iff the repository
name is a member, then continue with the topic checks. -/
def matchRepoNameSetCheck (rh : RepositoryExecutor) (repo : Repository) : Bool :=
  match rh.nameSet with
  | some s =>
    if !(s.contains repo.name) then false
    else matchRepoTopicRegexpCheck rh repo
  | none => matchRepoTopicRegexpCheck rh repo

/-- func (rh *RepositoryExecutor) matchRepo(repo *github.Repository) bool:
a chain of early-return checks — name regexp, name set, topic regexp
(pass if any topic matches), topic set (pass if any topic is a member) —
ending in return true. -/
def matchRepo (rh : RepositoryExecutor) (repo : Repository) : Bool :=
  match rh.nameRegexp with
  | some re =>
    if !(re.matchString repo.name) then false
    else matchRepoNameSetCheck rh repo
  | none => matchRepoNameSetCheck rh repo

/-- Spec-side matcher, written from the specification text of §3 and §4.1:
all specified filters are ANDed together; a present name pattern must
regex-match the name, a present name allow-set must contain the name, a
present topic pattern must be matched by at least one topic, a present topic
allow-set must contain at least one topic (OR across topics, AND across
filter categories); absent filters are vacuously satisfied. -/
def matchesSpec (rh : RepositoryExecutor) (repo : Repository) : Bool :=
  (match rh.nameRegexp with
   | some re => re.matchString repo.name
   | none => true) &&
  (match rh.nameSet with
   | some s => s.contains repo.name
   | none => true) &&
  (match rh.topicRegexp with
   | some re => repo.topics.any (fun t => re.matchString t)
   | none => true) &&
  (match rh.topicSet with
   | some s => repo.topics.any (fun t => s.contains t)
   | none => true)

/-- An early-return block of matchRepo (return false when the check b fails,
otherwise continue with r) is conjunction with the rest of the chain. -/
theorem early_return_eq_and (b r : Bool) : (if !b then false else r) = (b && r) := by
  cases b <;> simp

/-- C3: matchRepo is a deterministic total function (it is a Lean function of
the repository and the criteria alone, with no oracle parameters, hence no
I/O) and it agrees everywhere with the specification's matcher: every present
filter must independently pass, with OR across topics inside a topic filter
and AND across filter categories, absent filters vacuously satisfied. -/
theorem matchRepo_eq_matchesSpec (rh : RepositoryExecutor) (repo : Repository) :
    matchRepo rh repo = matchesSpec rh repo := by
  unfold matchRepo matchesSpec matchRepoNameSetCheck matchRepoTopicRegexpCheck
    matchRepoTopicSetCheck
  cases rh.nameRegexp <;> cases rh.nameSet <;> cases rh.topicRegexp <;> cases rh.topicSet <;>
    simp only [early_return_eq_and, Bool.and_assoc, Bool.and_true, Bool.true_and]

/-- C8: a repository with zero topics fails any active topic filter. -/
theorem matchRepo_emptyTopics_false (rh : RepositoryExecutor) (repo : Repository)
    (htopics : repo.topics = [])
    (hactive : rh.topicRegexp.isSome ∨ rh.topicSet.isSome) :
    matchRepo rh repo = false := by
  unfold matchRepo matchRepoNameSetCheck matchRepoTopicRegexpCheck matchRepoTopicSetCheck
  rcases hactive with h | h <;>
    cases hre : rh.nameRegexp <;> cases hs : rh.nameSet <;>
    cases hte : rh.topicRegexp <;> cases hts : rh.topicSet <;>
    simp_all [htopics]

/-- Witness for C8: a repository with no topics is rejected when a topic
allow-set is configured. -/
theorem matchRepo_emptyTopics_false_witness :
    matchRepo { topicSet := some ["topic-0"] } { name := "r", topics := [], cloneURL := "u" }
      = false :=
  matchRepo_emptyTopics_false { topicSet := some ["topic-0"] }
    { name := "r", topics := [], cloneURL := "u" } rfl (Or.inr rfl)

/-- A RepositoryExecutorOption mutates the configuration or fails
(func(*RepositoryExecutor) error, modelled state-passing style). -/
def RepositoryExecutorOption : Type :=
  RepositoryExecutor → Except String RepositoryExecutor

/-- WithOrg sets the organization field. -/
def WithOrg (org : String) : RepositoryExecutorOption :=
  fun fre => .ok { fre with org := some org }

/-- WithUser sets the user field. -/
def WithUser (user : String) : RepositoryExecutorOption :=
  fun fre => .ok { fre with user := some user }

/-- WithNameRegexp compiles the expression (regexp.Compile is the external
regexp engine, passed as the compile oracle) and on success stores it;
a compilation error is returned to the caller. -/
def WithNameRegexp (compile : String → Except String Regexp) (exp : String) :
    RepositoryExecutorOption :=
  fun fre =>
    match compile exp with
    | .error e => .error e
    | .ok re => .ok { fre with nameRegexp := some re }

/-- WithNameList stores the given names as the name allow-set. -/
def WithNameList (names : List String) : RepositoryExecutorOption :=
  fun fre => .ok { fre with nameSet := some names }

/-- WithTopicRegexp compiles the expression and stores it as topic pattern. -/
def WithTopicRegexp (compile : String → Except String Regexp) (exp : String) :
    RepositoryExecutorOption :=
  fun fre =>
    match compile exp with
    | .error e => .error e
    | .ok re => .ok { fre with topicRegexp := some re }

/-- WithTopicList stores the given topics as the topic allow-set. -/
def WithTopicList (topics : List String) : RepositoryExecutorOption :=
  fun fre => .ok { fre with topicSet := some topics }

/-- WithClient sets the github client (modelled by its optional token). -/
def WithClient (client : Option String) : RepositoryExecutorOption :=
  fun fre => .ok { fre with client := client }

/-- WithLogger sets the zap logger; the logger carries no data the pipeline
reads, so the option is an always-succeeding identity here. -/
def WithLogger : RepositoryExecutorOption :=
  fun fre => .ok fre

/-- WithUserAuth sets authUser and authToken from its two arguments. -/
def WithUserAuth (user token : String) : RepositoryExecutorOption :=
  fun fre => .ok { fre with authUser := some user, authToken := some token }

/-- WithOverwrite sets the overwrite flag. -/
def WithOverwrite (b : Bool) : RepositoryExecutorOption :=
  fun fre => .ok { fre with overwrite := b }

/-- WithCleanup sets the cleanup flag. -/
def WithCleanup (b : Bool) : RepositoryExecutorOption :=
  fun fre => .ok { fre with cleanup := b }

/-- WithTmpDir sets the temp directory. -/
def WithTmpDir (dir : String) : RepositoryExecutorOption :=
  fun fre => .ok { fre with tmpDir := dir }

/-- WithConcurrency sets the concurrency limit (Go int; -1 means unbounded). -/
def WithConcurrency (n : Int) : RepositoryExecutorOption :=
  fun fre => .ok { fre with concurrency := n }

/-- WithOutputFormat sets the output format. -/
def WithOutputFormat (format : Nat) : RepositoryExecutorOption :=
  fun fre => .ok { fre with outputFormat := format }

/-- WithShellPath sets the shell interpreter path. -/
def WithShellPath (p : String) : RepositoryExecutorOption :=
  fun fre => .ok { fre with shellPath := p }

/-- path.Join of a directory and a child name (arguments are already clean
in every call site of the Go code). -/
def pathJoin (a b : String) : String := a ++ "/" ++ b

/-- The base configuration NewRepositoryExecutor starts from: unauthenticated
client, default logger, tmpDir = path.Join(wd, "tmp"), concurrency 1,
shell /bin/sh. -/
def defaultExecutor (wd : String) : RepositoryExecutor :=
  { client := none
    tmpDir := pathJoin wd "tmp"
    concurrency := 1
    shellPath := "/bin/sh" }

/-- The option-application loop of NewRepositoryExecutor: apply each option in
order; the first error aborts and is returned. -/
def applyOptions : List RepositoryExecutorOption → RepositoryExecutor →
    Except String RepositoryExecutor
  | [], fre => .ok fre
  | opt :: rest, fre =>
    match opt fre with
    | .error e => .error e
    | .ok fre2 => applyOptions rest fre2

/-- func NewRepositoryExecutor(opts ...RepositoryExecutorOption): build the
default configuration and fold the options over it, aborting on the first
error (wd is the working directory returned by os.Getwd). -/
def NewRepositoryExecutor (wd : String) (opts : List RepositoryExecutorOption) :
    Except String RepositoryExecutor :=
  applyOptions opts (defaultExecutor wd)

/-- The tail of RunWithArgs: construct the executor and only if construction
succeeded run the pipeline (handler.Go), which is where all network traffic
happens.  goCalls abstracts the number of network calls handler.Go would
make for a given configuration; the second component is the number of
network calls actually made. -/
def buildAndGo (wd : String) (opts : List RepositoryExecutorOption)
    (goCalls : RepositoryExecutor → Nat) :
    Except String RepositoryExecutor × Nat :=
  match NewRepositoryExecutor wd opts with
  | .error e => (.error e, 0)
  | .ok rh => (.ok rh, goCalls rh)

/-- applyOptions distributes over list append via Except bind. -/
theorem applyOptions_append (l1 l2 : List RepositoryExecutorOption)
    (c : RepositoryExecutor) :
    applyOptions (l1 ++ l2) c =
      match applyOptions l1 c with
      | .error e => .error e
      | .ok c2 => applyOptions l2 c2 := by
  induction l1 generalizing c with
  | nil => simp [applyOptions]
  | cons o rest ih =>
    simp only [List.cons_append, applyOptions]
    cases o c with
    | error e => rfl
    | ok c2 => exact ih c2

/-- C5: configuration construction fails atomically.  If the options that
precede some option succeed (producing the intermediate configuration c) and
that option fails with error e — for instance WithNameRegexp on an invalid
expression — then NewRepositoryExecutor returns exactly .error e: the build
aborts at the first failing option, that option's error is propagated
unchanged, no configuration value is returned, and the pipeline stage that
performs network calls is never entered (zero network calls). -/
theorem newRepositoryExecutor_failing_option_aborts
    (wd : String) (pre rest : List RepositoryExecutorOption)
    (opt : RepositoryExecutorOption) (c : RepositoryExecutor) (e : String)
    (goCalls : RepositoryExecutor → Nat)
    (hpre : applyOptions pre (defaultExecutor wd) = .ok c)
    (hopt : opt c = .error e) :
    NewRepositoryExecutor wd (pre ++ opt :: rest) = .error e ∧
      buildAndGo wd (pre ++ opt :: rest) goCalls = (.error e, 0) := by
  have habort : NewRepositoryExecutor wd (pre ++ opt :: rest) = .error e := by
    unfold NewRepositoryExecutor
    rw [applyOptions_append, hpre]
    simp [applyOptions, hopt]
  refine ⟨habort, ?_⟩
  unfold buildAndGo
  rw [habort]

/-- A regexp compiler behaving like regexp.Compile on the unclosed group
expression "(": compilation fails with a parse error. -/
def compileRejectingOpenParen (exp : String) : Except String Regexp :=
  if exp = "(" then .error "error parsing regexp: missing closing ): (" -- as Go reports it
  else .ok { matchString := fun _ => true }

/-- Witness for C5: the invalid name-filter regex "(" makes construction fail
with the compiler's error and zero network calls, at concrete inputs. -/
theorem newRepositoryExecutor_failing_option_aborts_witness :
    applyOptions [WithOrg "acme"] (defaultExecutor "/home") = .ok
        { (defaultExecutor "/home") with org := some "acme" } ∧
      WithNameRegexp compileRejectingOpenParen "("
          { (defaultExecutor "/home") with org := some "acme" } =
        .error "error parsing regexp: missing closing ): (" ∧
      NewRepositoryExecutor "/home"
          ([WithOrg "acme"] ++ WithNameRegexp compileRejectingOpenParen "(" :: [WithUser "bob"]) =
        .error "error parsing regexp: missing closing ): (" ∧
      buildAndGo "/home"
          ([WithOrg "acme"] ++ WithNameRegexp compileRejectingOpenParen "(" :: [WithUser "bob"])
          (fun _ => 7) =
        (.error "error parsing regexp: missing closing ): (", 0) := by
  refine ⟨rfl, rfl, ?_⟩
  have h := newRepositoryExecutor_failing_option_aborts "/home" [WithOrg "acme"]
    [WithUser "bob"] (WithNameRegexp compileRejectingOpenParen "(")
    { (defaultExecutor "/home") with org := some "acme" }
    "error parsing regexp: missing closing ): (" (fun _ => 7) rfl rfl
  exact h

/-- The four ways the Repository Discoverer can resolve the owner selector
(which listing endpoint getRepositories dispatches to, or the error). -/
inductive DiscoverySelector where
  | orgListing (org : String)
  | authenticatedUserListing
  | userListing (user : String)
  | noOwnerError (msg : String)
deriving Repr, DecidableEq

/-- func (rh *RepositoryExecutor) getRepositories: the owner-selector
dispatch chain.  org non-nil wins; else the authenticated-caller mode when
authUser, authToken and user are all non-nil and *authUser == *user (the
Option equality below is value equality since both sides are some); else a
non-nil user; else the error "no user or org specified". -/
def getRepositories (rh : RepositoryExecutor) : DiscoverySelector :=
  match rh.org with
  | some o => .orgListing o
  | none =>
    if rh.authUser.isSome && rh.authToken.isSome && rh.user.isSome
        && rh.authUser == rh.user then
      .authenticatedUserListing
    else
      match rh.user with
      | some u => .userListing u
      | none => .noOwnerError "no user or org specified"

/-- C4: owner-selector resolution order.  (1) a set organization always wins;
(2) otherwise, set credentials whose user equals the configured named user
select authenticated-caller listing; (3) otherwise a set named user selects
user listing; (4) with neither organization nor user, discovery fails with
the no-owner error. -/
theorem getRepositories_resolution_order (rh : RepositoryExecutor) :
    (∀ o, rh.org = some o → getRepositories rh = .orgListing o) ∧
    (∀ u tok, rh.org = none → rh.authUser = some u → rh.authToken = some tok →
      rh.user = some u → getRepositories rh = .authenticatedUserListing) ∧
    (∀ u, rh.org = none → rh.user = some u →
      ¬(rh.authUser = some u ∧ rh.authToken.isSome) →
      getRepositories rh = .userListing u) ∧
    (rh.org = none → rh.user = none →
      getRepositories rh = .noOwnerError "no user or org specified") := by
  refine ⟨?_, ?_, ?_, ?_⟩
  · intro o ho
    unfold getRepositories
    rw [ho]
  · intro u tok horg hau hat hu
    unfold getRepositories
    rw [horg]
    simp [hau, hat, hu]
  · intro u horg hu hnot
    unfold getRepositories
    rw [horg]
    have hcond : (rh.authUser.isSome && rh.authToken.isSome && rh.user.isSome
        && rh.authUser == rh.user) = false := by
      rw [hu]
      cases hau : rh.authUser with
      | none => simp
      | some au =>
        cases hat : rh.authToken with
        | none => simp
        | some t =>
          have : au ≠ u := by
            intro h
            exact hnot ⟨by rw [hau, h], by rw [hat]; rfl⟩
          simp [this]
    rw [hcond]
    simp [hu]
  · intro horg hu
    unfold getRepositories
    rw [horg]
    simp [hu]

/-- Witness for C4: concrete configurations exercise all four branches of the
resolution order. -/
theorem getRepositories_resolution_order_witness :
    getRepositories { org := some "acme", user := some "bob" } = .orgListing "acme" ∧
    getRepositories { authUser := some "bob", authToken := some "tok", user := some "bob" } =
      .authenticatedUserListing ∧
    getRepositories { user := some "bob" } = .userListing "bob" ∧
    getRepositories { authToken := some "tok" } = .noOwnerError "no user or org specified" := by
  refine ⟨?_, ?_, ?_, ?_⟩
  · exact (getRepositories_resolution_order
      { org := some "acme", user := some "bob" }).1 "acme" rfl
  · exact (getRepositories_resolution_order
      { authUser := some "bob", authToken := some "tok", user := some "bob" }).2.1
      "bob" "tok" rfl rfl rfl rfl
  · exact (getRepositories_resolution_order { user := some "bob" }).2.2.1 "bob" rfl rfl
      (by rintro ⟨h, -⟩; exact Option.noConfusion h)
  · exact (getRepositories_resolution_order { authToken := some "tok" }).2.2.2 rfl rfl

/-- Outcome of git.PlainCloneContext to a destination directory. -/
inductive CloneOutcome where
  | success
  | failure (msg : String)
deriving Repr, DecidableEq

/-- Outcome of running the command under the shell in a directory: the fully
captured stdout and stderr buffers and the optional error (non-zero exit or
start failure) returned by cmd.Run. -/
structure ExecOutcome where
  stdout : String
  stderr : String
  err : Option String
deriving Repr, DecidableEq

/-- The external world a run interacts with: the clone operation per
destination directory and the process runner keyed by the exact arguments
execCommand passes (shell path, command string, working directory). -/
structure RunEnv where
  cloneOutcome : String → CloneOutcome
  execOutcome : String → String → String → ExecOutcome

/-- Observable operations the Work Coordinator issues for one repository. -/
inductive Event where
  | cloneAttempt (dest : String)
  | execCall (shellPath command dir : String)
deriving Repr, DecidableEq

/-- The working directory of a repository inside the temp root:
repoDir := path.Join(rh.tmpDir, repo.GetName()). -/
def workRepoDir (rh : RepositoryExecutor) (repo : Repository) : String :=
  pathJoin rh.tmpDir repo.name

/-- Output of the worker body for one repository: the file-system state
afterwards (the set of existing per-repository directories), the operations
issued, and the result record sent to the result channel, if any. -/
structure StepOut where
  fs : List String
  events : List Event
  result : Option executionResult
deriving Repr

/-- The tail of the worker body, entered when the directory exists (or the
clone succeeded): run execCommand(command, repoDir) with the configured
shell, build the result record with the captured buffers and the (possibly
nil) error, and delete the directory afterwards when cleanup is on
(the deferred os.RemoveAll). -/
def execPhase (rh : RepositoryExecutor) (env : RunEnv) (command : String)
    (fs : List String) (dir : String) : StepOut :=
  let out := env.execOutcome rh.shellPath command dir
  { fs := if rh.cleanup then fs.erase dir else fs
    events := [.execCall rh.shellPath command dir]
    result := some
      { Path := dir
        Command := command
        Stdout := out.stdout
        Stderr := out.stderr
        Error := out.err } }

/-- The closure dispatched by repoG.Go for one repository (current revision of
the handler): compute repoDir; if the directory does not exist, clone it, and
on clone error log and return nil — no result is emitted for that repository;
otherwise (directory present, or clone succeeded) continue into the
execution phase. -/
def processRepo (rh : RepositoryExecutor) (env : RunEnv) (command : String)
    (fs : List String) (repo : Repository) : StepOut :=
  let dir := workRepoDir rh repo
  if fs.contains dir then
    execPhase rh env command fs dir
  else
    match env.cloneOutcome dir with
    | .failure _ =>
      { fs := fs, events := [.cloneAttempt dir], result := none }
    | .success =>
      let s := execPhase rh env command (dir :: fs) dir
      { s with events := .cloneAttempt dir :: s.events }

/-- Aggregate run output: final file-system state, the full operation trace
and the contents of the result queue. -/
structure RunOut where
  fs : List String
  events : List Event
  results : List executionResult
deriving Repr

/-- The dispatch loop of the Work Coordinator (the goroutine ranging over
repoCh), linearized: each discovered repository is handed to a worker which
runs the body processRepo; traces and emitted results are concatenated. -/
def runWorkers (rh : RepositoryExecutor) (env : RunEnv) (command : String) :
    List Repository → List String → RunOut
  | [], fs => { fs := fs, events := [], results := [] }
  | repo :: rest, fs =>
    let s := processRepo rh env command fs repo
    let r := runWorkers rh env command rest s.fs
    { fs := r.fs
      events := s.events ++ r.events
      results := s.result.toList ++ r.results }

/-- The directory an execCall event ran in, if the event is an execCall. -/
def execCallDir : Event → Option String
  | .execCall _ _ d => some d
  | _ => none

/-- C2: for every run, the result queue corresponds one-to-one with the
repositories that entered the execution stage: the paths of the emitted
result records are exactly the working directories of the execCall
operations, in order — so each repository whose command was executed
contributes exactly one record, and no other record exists. -/
theorem results_one_per_executed_repo (rh : RepositoryExecutor) (env : RunEnv)
    (command : String) (repos : List Repository) (fs : List String) :
    (runWorkers rh env command repos fs).results.map (·.Path) =
      (runWorkers rh env command repos fs).events.filterMap execCallDir := by
  induction repos generalizing fs with
  | nil => simp [runWorkers]
  | cons repo rest ih =>
    simp only [runWorkers, List.map_append, List.filterMap_append, ih]
    congr 1
    unfold processRepo
    by_cases h : workRepoDir rh repo ∈ fs
    · simp [h, execPhase, execCallDir]
    · cases hc : env.cloneOutcome (workRepoDir rh repo) with
      | failure m => simp [h, hc, execCallDir]
      | success => simp [h, hc, execPhase, execCallDir]

/-- The repository, environment and configuration of the C1 counterexample:
two repositories; cloning the first fails, cloning the second succeeds. -/
def c1Repo1 : Repository := { name := "repo-a", topics := [], cloneURL := "urlA" }

/-- Second repository of the C1 counterexample. -/
def c1Repo2 : Repository := { name := "repo-b", topics := [], cloneURL := "urlB" }

/-- Configuration of the C1 counterexample. -/
def c1Exec : RepositoryExecutor := { tmpDir := "/work/tmp" }

/-- Environment of the C1 counterexample: clone of repo-a fails, everything
else succeeds, the command prints hi. -/
def c1Env : RunEnv :=
  { cloneOutcome := fun d => if d = "/work/tmp/repo-a" then .failure "authentication required" else .success
    execOutcome := fun _ _ _ => { stdout := "hi\x0a", stderr := "", err := none } }

/-- Counterexample to C1 as stated: when the clone of repo-a fails, the run
continues, but NO execution-result record is pushed for repo-a — the result
queue holds only the repo-b record, and no record carries the clone error.
The claim requires one record for repo-a carrying the clone error. -/
theorem cloneFailure_result_counterexample :
    (runWorkers c1Exec c1Env "echo hi" [c1Repo1, c1Repo2] []).results.map (·.Path) =
        ["/work/tmp/repo-b"] ∧
      ∀ r ∈ (runWorkers c1Exec c1Env "echo hi" [c1Repo1, c1Repo2] []).results,
        r.Path ≠ "/work/tmp/repo-a" ∧ r.Error = none := by
  decide

/-- C1 amended: when cloning a repository fails, the run does not abort — the
Work Coordinator logs the clone error, emits NO execution-result record for
that repository (the same worker returns without touching the result queue),
leaves the file system unchanged, and continues with the remaining
repositories exactly as if the failed repository had not been dispatched. -/
theorem cloneFailure_skips_and_continues (rh : RepositoryExecutor) (env : RunEnv)
    (command : String) (fs : List String) (repo : Repository)
    (rest : List Repository) (msg : String)
    (habsent : fs.contains (workRepoDir rh repo) = false)
    (hfail : env.cloneOutcome (workRepoDir rh repo) = .failure msg) :
    runWorkers rh env command (repo :: rest) fs =
      { fs := (runWorkers rh env command rest fs).fs
        events := .cloneAttempt (workRepoDir rh repo) ::
          (runWorkers rh env command rest fs).events
        results := (runWorkers rh env command rest fs).results } := by
  have h : ¬ (workRepoDir rh repo ∈ fs) := by simpa using habsent
  simp [runWorkers, processRepo, h, hfail]

/-- Witness for the amended C1: in the counterexample run, skipping failed
repo-a leaves exactly the repo-b outcome. -/
theorem cloneFailure_skips_and_continues_witness :
    runWorkers c1Exec c1Env "echo hi" [c1Repo1, c1Repo2] [] =
      { fs := (runWorkers c1Exec c1Env "echo hi" [c1Repo2] []).fs
        events := .cloneAttempt "/work/tmp/repo-a" ::
          (runWorkers c1Exec c1Env "echo hi" [c1Repo2] []).events
        results := (runWorkers c1Exec c1Env "echo hi" [c1Repo2] []).results } :=
  cloneFailure_skips_and_continues c1Exec c1Env "echo hi" [] c1Repo1 [c1Repo2]
    "authentication required" rfl rfl

/-- C6: whenever a repository reaches the execution phase (its directory is
present, or its clone succeeded), the command string is executed through the
configured shell interpreter with the repository directory as working root
(the execCall event records exactly those three arguments); stdout and
stderr are captured whole into the result record; the error returned by the
command — including a non-zero exit — is recorded in the record's Error
field and is not fatal: the worker still emits the record and the remaining
repositories are processed, their outcomes appended unchanged. -/
theorem execCommand_records_error_and_continues (rh : RepositoryExecutor)
    (env : RunEnv) (command : String) (fs : List String) (repo : Repository)
    (rest : List Repository)
    (henter : fs.contains (workRepoDir rh repo) = true ∨
      env.cloneOutcome (workRepoDir rh repo) = .success) :
    (processRepo rh env command fs repo).result = some
        { Path := workRepoDir rh repo
          Command := command
          Stdout := (env.execOutcome rh.shellPath command (workRepoDir rh repo)).stdout
          Stderr := (env.execOutcome rh.shellPath command (workRepoDir rh repo)).stderr
          Error := (env.execOutcome rh.shellPath command (workRepoDir rh repo)).err } ∧
      Event.execCall rh.shellPath command (workRepoDir rh repo) ∈
        (processRepo rh env command fs repo).events ∧
      (runWorkers rh env command (repo :: rest) fs).results =
        (processRepo rh env command fs repo).result.toList ++
          (runWorkers rh env command rest (processRepo rh env command fs repo).fs).results := by
  refine ⟨?_, ?_, rfl⟩
  · unfold processRepo
    rcases henter with h | h
    · have h' : workRepoDir rh repo ∈ fs := by simpa using h
      simp [h', execPhase]
    · by_cases hc : workRepoDir rh repo ∈ fs
      · simp [hc, execPhase]
      · simp [hc, h, execPhase]
  · unfold processRepo
    rcases henter with h | h
    · have h' : workRepoDir rh repo ∈ fs := by simpa using h
      simp [h', execPhase]
    · by_cases hc : workRepoDir rh repo ∈ fs
      · simp [hc, execPhase]
      · simp [hc, h, execPhase]

/-- Environment for the C6 witness: the command fails with exit status 1 and
partial output; clone succeeds. -/
def c6Env : RunEnv :=
  { cloneOutcome := fun _ => .success
    execOutcome := fun _ _ _ => { stdout := "out", stderr := "boom", err := some "exit status 1" } }

/-- Witness for C6: the failing command's record carries the shell, the
working root, the captured buffers and the error, and the run goes on. -/
theorem execCommand_records_error_and_continues_witness :
    (processRepo c1Exec c6Env "false" [] c1Repo1).result = some
        { Path := "/work/tmp/repo-a", Command := "false", Stdout := "out",
          Stderr := "boom", Error := some "exit status 1" } ∧
      Event.execCall "/bin/sh" "false" "/work/tmp/repo-a" ∈
        (processRepo c1Exec c6Env "false" [] c1Repo1).events ∧
      (runWorkers c1Exec c6Env "false" [c1Repo1, c1Repo2] []).results =
        (processRepo c1Exec c6Env "false" [] c1Repo1).result.toList ++
          (runWorkers c1Exec c6Env "false" [c1Repo2]
            (processRepo c1Exec c6Env "false" [] c1Repo1).fs).results :=
  execCommand_records_error_and_continues c1Exec c6Env "false" [] c1Repo1 [c1Repo2]
    (Or.inr rfl)

/-- Destination of a cloneAttempt event, if the event is a cloneAttempt. -/
def cloneDest : Event → Option String
  | .cloneAttempt d => some d
  | _ => none

/-- The clone operations of a trace, as their destination directories. -/
def cloneEvents (evs : List Event) : List String := evs.filterMap cloneDest

/-- One worker issues a clone exactly when the repository directory is absent
at dispatch, and then exactly one clone, to that directory. -/
theorem cloneEvents_processRepo (rh : RepositoryExecutor) (env : RunEnv)
    (command : String) (fs : List String) (repo : Repository) :
    cloneEvents (processRepo rh env command fs repo).events =
      if workRepoDir rh repo ∈ fs then [] else [workRepoDir rh repo] := by
  unfold processRepo
  by_cases h : workRepoDir rh repo ∈ fs
  · simp [h, execPhase, cloneEvents, cloneDest]
  · cases hc : env.cloneOutcome (workRepoDir rh repo) with
    | failure m => simp [h, hc, cloneEvents, cloneDest]
    | success => simp [h, hc, execPhase, cloneEvents, cloneDest]

/-- The full operation trace of one worker, in closed form. -/
theorem processRepo_events (rh : RepositoryExecutor) (env : RunEnv)
    (command : String) (fs : List String) (repo : Repository) :
    (processRepo rh env command fs repo).events =
      if workRepoDir rh repo ∈ fs then
        [Event.execCall rh.shellPath command (workRepoDir rh repo)]
      else
        match env.cloneOutcome (workRepoDir rh repo) with
        | .failure _ => [Event.cloneAttempt (workRepoDir rh repo)]
        | .success => [Event.cloneAttempt (workRepoDir rh repo),
            Event.execCall rh.shellPath command (workRepoDir rh repo)] := by
  unfold processRepo
  by_cases h : workRepoDir rh repo ∈ fs
  · simp [h, execPhase]
  · cases hc : env.cloneOutcome (workRepoDir rh repo) <;> simp [h, hc, execPhase]

/-- Every clone destination of a run is the directory of a dispatched
repository. -/
theorem cloneEvents_runWorkers_subset (rh : RepositoryExecutor) (env : RunEnv)
    (command : String) (repos : List Repository) (fs : List String) :
    ∀ d ∈ cloneEvents (runWorkers rh env command repos fs).events,
      d ∈ repos.map (workRepoDir rh) := by
  induction repos generalizing fs with
  | nil => simp [runWorkers, cloneEvents]
  | cons repo rest ih =>
    intro d hd
    simp only [runWorkers, cloneEvents, List.filterMap_append, List.mem_append] at hd
    rcases hd with hd | hd
    · have := cloneEvents_processRepo rh env command fs repo
      unfold cloneEvents at this
      rw [this] at hd
      by_cases h : workRepoDir rh repo ∈ fs
      · simp [h] at hd
      · rw [if_neg h] at hd
        simp only [List.mem_singleton] at hd
        simp [hd]
    · have := ih (processRepo rh env command fs repo).fs d hd
      simp [this]

/-- Distinct dispatched directories are cloned at most once each. -/
theorem cloneEvents_count_le_one (rh : RepositoryExecutor) (env : RunEnv)
    (command : String) (repos : List Repository) (fs : List String)
    (hnodup : (repos.map (workRepoDir rh)).Nodup) (d : String) :
    (cloneEvents (runWorkers rh env command repos fs).events).count d ≤ 1 := by
  induction repos generalizing fs with
  | nil => simp [runWorkers, cloneEvents]
  | cons repo rest ih =>
    simp only [List.map_cons, List.nodup_cons] at hnodup
    simp only [runWorkers, cloneEvents, List.filterMap_append, List.count_append]
    have hhead := cloneEvents_processRepo rh env command fs repo
    unfold cloneEvents at hhead
    rw [hhead]
    by_cases hd : d = workRepoDir rh repo
    · have htail : (List.filterMap cloneDest
          (runWorkers rh env command rest (processRepo rh env command fs repo).fs).events).count d
            = 0 := by
        rw [List.count_eq_zero]
        intro hmem
        exact hnodup.1 (hd ▸ cloneEvents_runWorkers_subset rh env command rest _ d hmem)
      rw [htail]
      by_cases h : workRepoDir rh repo ∈ fs <;> simp [h, hd]
    · have hhead0 : (if workRepoDir rh repo ∈ fs then ([] : List String)
          else [workRepoDir rh repo]).count d = 0 := by
        by_cases h : workRepoDir rh repo ∈ fs <;> simp [h, List.count_cons, hd]
      rw [hhead0]
      simpa using ih (processRepo rh env command fs repo).fs hnodup.2

/-- String concatenation cancels on the left. -/
theorem string_append_left_cancel (a b c : String) (h : a ++ b = a ++ c) : b = c := by
  cases b with
  | mk db =>
    cases c with
    | mk dc =>
      have hd := congrArg String.data h
      simp only [String.data_append] at hd
      have hbc := List.append_cancel_left hd
      rw [hbc]

/-- C7: within one run no repository is cloned twice.  (1) a worker whose
repository directory already exists at dispatch time issues no clone
operation; (2) every issued clone targets the worker's own directory and
only when that directory is absent at dispatch time; (3) consequently, for a
dispatch list with pairwise-distinct repository names, every destination
directory appears at most once among the run's clone operations. -/
theorem no_second_clone (rh : RepositoryExecutor) (env : RunEnv) (command : String)
    (repos : List Repository) (fs : List String)
    (hnodup : (repos.map (·.name)).Nodup) :
    (∀ repo fs0, workRepoDir rh repo ∈ fs0 →
      cloneEvents (processRepo rh env command fs0 repo).events = []) ∧
    (∀ repo fs0 d, Event.cloneAttempt d ∈ (processRepo rh env command fs0 repo).events →
      d = workRepoDir rh repo ∧ workRepoDir rh repo ∉ fs0) ∧
    (∀ d, (cloneEvents (runWorkers rh env command repos fs).events).count d ≤ 1) := by
  refine ⟨?_, ?_, ?_⟩
  · intro repo fs0 hmem
    rw [cloneEvents_processRepo]
    simp [hmem]
  · intro repo fs0 d hd
    rw [processRepo_events] at hd
    by_cases h : workRepoDir rh repo ∈ fs0
    · rw [if_pos h] at hd
      simp at hd
    · refine ⟨?_, h⟩
      rw [if_neg h] at hd
      cases hc : env.cloneOutcome (workRepoDir rh repo) with
      | failure m =>
        rw [hc] at hd
        simpa using hd
      | success =>
        rw [hc] at hd
        simp only [List.mem_cons, List.mem_singleton] at hd
        rcases hd with hd | hd
        · exact (Event.cloneAttempt.injEq _ _).mp hd
        · exact absurd hd (by simp)
  · intro d
    apply cloneEvents_count_le_one
    have : repos.map (workRepoDir rh) = (repos.map (·.name)).map (pathJoin rh.tmpDir) := by
      simp [workRepoDir, Function.comp]
    rw [this]
    exact hnodup.map (fun a b hab => string_append_left_cancel (rh.tmpDir ++ "/") a b
      (by simpa [pathJoin, String.append_assoc] using hab))

/-- Witness for C7: two distinct repositories; every clone destination occurs
at most once, and a pre-existing directory suppresses the clone. -/
theorem no_second_clone_witness :
    ([c1Repo1, c1Repo2].map (·.name)).Nodup ∧
      cloneEvents (processRepo c1Exec c6Env "ls" ["/work/tmp/repo-a"] c1Repo1).events = [] ∧
      (cloneEvents (runWorkers c1Exec c6Env "ls" [c1Repo1, c1Repo2] []).events).count
          "/work/tmp/repo-a" ≤ 1 := by
  refine ⟨by decide, ?_, ?_⟩
  · exact (no_second_clone c1Exec c6Env "ls" [c1Repo1, c1Repo2] [] (by decide)).1
      c1Repo1 ["/work/tmp/repo-a"] (by decide)
  · exact (no_second_clone c1Exec c6Env "ls" [c1Repo1, c1Repo2] [] (by decide)).2.2
      "/work/tmp/repo-a"

/-- Phase of one in-flight worker: the worker first clones (when the
directory is absent at dispatch) and then executes; it holds its slot for
one repository end-to-end. -/
inductive WorkerPhase where
  | cloning (repo : Repository)
  | executing (repo : Repository)
deriving Repr, DecidableEq

/-- State of the Work Coordinator's dispatch loop: repositories still to be
read from the repository channel, the in-flight workers of the inner
errgroup, and the finished repositories. -/
structure PoolState where
  pending : List Repository
  inFlight : List WorkerPhase
  completed : List Repository
deriving Repr, DecidableEq

/-- Interleaving semantics of the dispatch loop with repoG.SetLimit(limit):
repoG.Go admits a new worker only when limit is negative (the unbounded
sentinel, as errgroup treats any negative limit) or fewer than limit workers
are in flight; a dispatched worker starts in the cloning phase when its
directory is absent and in the executing phase otherwise; a cloning worker
either proceeds to execute (clone finished or directory found) or leaves on
clone failure; an executing worker leaves when the command finishes. -/
inductive PoolStep (rh : RepositoryExecutor) (dirExists : String → Bool)
    (limit : Int) : PoolState → PoolState → Prop where
  | dispatch (repo : Repository) (rest : List Repository)
      (inFlight : List WorkerPhase) (completed : List Repository)
      (hroom : limit < 0 ∨ (inFlight.length : Int) < limit) :
      PoolStep rh dirExists limit
        { pending := repo :: rest, inFlight := inFlight, completed := completed }
        { pending := rest
          inFlight := (if dirExists (workRepoDir rh repo) then
            WorkerPhase.executing repo else WorkerPhase.cloning repo) :: inFlight
          completed := completed }
  | cloneDone (repo : Repository) (pending : List Repository)
      (l1 l2 : List WorkerPhase) (completed : List Repository) :
      PoolStep rh dirExists limit
        { pending := pending, inFlight := l1 ++ WorkerPhase.cloning repo :: l2
          completed := completed }
        { pending := pending, inFlight := l1 ++ WorkerPhase.executing repo :: l2
          completed := completed }
  | cloneFailed (repo : Repository) (pending : List Repository)
      (l1 l2 : List WorkerPhase) (completed : List Repository) :
      PoolStep rh dirExists limit
        { pending := pending, inFlight := l1 ++ WorkerPhase.cloning repo :: l2
          completed := completed }
        { pending := pending, inFlight := l1 ++ l2, completed := completed }
  | execDone (repo : Repository) (pending : List Repository)
      (l1 l2 : List WorkerPhase) (completed : List Repository) :
      PoolStep rh dirExists limit
        { pending := pending, inFlight := l1 ++ WorkerPhase.executing repo :: l2
          completed := completed }
        { pending := pending, inFlight := l1 ++ l2, completed := repo :: completed }

/-- States reachable by the dispatch loop through any interleaving. -/
def PoolReachable (rh : RepositoryExecutor) (dirExists : String → Bool)
    (limit : Int) : PoolState → PoolState → Prop :=
  Relation.ReflTransGen (PoolStep rh dirExists limit)

/-- Every step keeps the number of in-flight workers at or below a
nonnegative limit. -/
theorem poolStep_preserves_bound (rh : RepositoryExecutor)
    (dirExists : String → Bool) (N : Nat) (s t : PoolState)
    (hstep : PoolStep rh dirExists (N : Int) s t)
    (hs : s.inFlight.length ≤ N) : t.inFlight.length ≤ N := by
  cases hstep with
  | dispatch repo rest inFlight completed hroom =>
    rcases hroom with h | h
    · omega
    · simp only [List.length_cons]
      have : inFlight.length < N := by exact_mod_cast h
      omega
  | cloneDone repo pending l1 l2 completed =>
    simpa using hs
  | cloneFailed repo pending l1 l2 completed =>
    simp only [List.length_append] at hs ⊢
    simp only [List.length_cons] at hs
    omega
  | execDone repo pending l1 l2 completed =>
    simp only [List.length_append] at hs ⊢
    simp only [List.length_cons] at hs
    omega

/-- C9: with a positive concurrency limit N the pool never has more than N
clone/execute operations in flight in any reachable state of any
interleaving; and the unbounded sentinel (a negative limit) removes the
bound: dispatch is always enabled while repositories are pending, whatever
the number of in-flight workers.  Each in-flight entry is a single worker
holding one repository end-to-end (cloning then executing, by the step
relation) until it completes. -/
theorem concurrency_bound (rh : RepositoryExecutor) (dirExists : String → Bool)
    (N : Nat) (_hN : 0 < N) (repos : List Repository) (s : PoolState)
    (hreach : PoolReachable rh dirExists (N : Int)
      { pending := repos, inFlight := [], completed := [] } s) :
    s.inFlight.length ≤ N ∧
      (∀ limit : Int, limit < 0 → ∀ t : PoolState, ∀ repo rest,
        t.pending = repo :: rest → ∃ u, PoolStep rh dirExists limit t u) := by
  constructor
  · induction hreach with
    | refl => simp
    | tail hsteps hstep ih =>
      exact poolStep_preserves_bound rh dirExists N _ _ hstep ih
  · intro limit hneg t repo rest hpending
    obtain ⟨p, fl, comp⟩ := t
    dsimp only at hpending
    subst hpending
    exact ⟨_, PoolStep.dispatch repo rest fl comp (Or.inl hneg)⟩

/-- Witness for C9: with limit 1 the initial two-repository state is
reachable (empty derivation) and satisfies the bound; the sentinel clause is
exercised at limit -1. -/
theorem concurrency_bound_witness :
    ({ pending := [c1Repo1, c1Repo2], inFlight := [], completed := [] } :
        PoolState).inFlight.length ≤ 1 ∧
      (∀ limit : Int, limit < 0 → ∀ t : PoolState, ∀ repo rest,
        t.pending = repo :: rest →
          ∃ u, PoolStep c1Exec (fun _ => false) limit t u) :=
  concurrency_bound c1Exec (fun _ => false) 1 (by decide) [c1Repo1, c1Repo2]
    { pending := [c1Repo1, c1Repo2], inFlight := [], completed := [] }
    Relation.ReflTransGen.refl

/-- Credentials attached to the clone transport
(go-git http.BasicAuth in cloneRepo). -/
structure BasicAuth where
  username : String
  password : String
deriving Repr, DecidableEq

/-- The auth value cloneRepo builds: BasicAuth from authUser/authToken when
both are non-nil, otherwise nil (unauthenticated clone). -/
def cloneRepoAuth (rh : RepositoryExecutor) : Option BasicAuth :=
  match rh.authUser, rh.authToken with
  | some u, some t => some { username := u, password := t }
  | _, _ => none

/-- The parsed command-line arguments (struct Args of ghforeach.go), with the
defaults the arg parser injects. -/
structure Args where
  command : String
  authUser : Option String := none
  authToken : Option String := none
  org : Option String := none
  user : Option String := none
  nameExp : Option String := none
  nameList : Option String := none
  topicExp : Option String := none
  topicList : Option String := none
  shell : String := "/bin/sh"
  tmpDir : String := "./tmp"
  cleanup : Bool := false
  overwrite : Bool := false
  nThreads : Int := 1
  json : Bool := false
  debug : Bool := false

/-- strings.Split(s, a newline) as used on allow-list files. -/
def splitLines (s : String) : List String := s.splitOn "\x0a"

/-- The github client RunWithArgs builds: NewClient(nil), upgraded with the
auth token when one is supplied (modelled by the optional bearer token). -/
def clientOf (args : Args) : Option String := args.authToken

/-- The unconditional head of the option list RunWithArgs assembles. -/
def baseOpts (args : Args) : List RepositoryExecutorOption :=
  [WithClient (clientOf args), WithLogger, WithCleanup args.cleanup,
    WithOverwrite args.overwrite, WithConcurrency args.nThreads,
    WithTmpDir args.tmpDir, WithShellPath args.shell]

/-- The conditional auth option: when both AuthUser and AuthToken are
supplied, RunWithArgs appends WithUserAuth(*args.AuthToken, *args.AuthToken)
— the token in BOTH positions, as the source does. -/
def authOpts (au tok : Option String) : List RepositoryExecutorOption :=
  match au, tok with
  | some _, some t => [WithUserAuth t t]
  | _, _ => []

/-- Conditional WithOrg append. -/
def orgOpts (x : Option String) : List RepositoryExecutorOption :=
  match x with
  | some o => [WithOrg o]
  | none => []

/-- Conditional WithUser append. -/
def userOpts (x : Option String) : List RepositoryExecutorOption :=
  match x with
  | some u => [WithUser u]
  | none => []

/-- Conditional WithNameRegexp append. -/
def nameExpOpts (compile : String → Except String Regexp) (x : Option String) :
    List RepositoryExecutorOption :=
  match x with
  | some e => [WithNameRegexp compile e]
  | none => []

/-- Conditional WithTopicRegexp append. -/
def topicExpOpts (compile : String → Except String Regexp) (x : Option String) :
    List RepositoryExecutorOption :=
  match x with
  | some e => [WithTopicRegexp compile e]
  | none => []

/-- Conditional name allow-list append: the file is read (readFile is the
os.ReadFile oracle and can fail, aborting RunWithArgs) and split on
newlines. -/
def nameListOpts (readFile : String → Except String String) (x : Option String) :
    Except String (List RepositoryExecutorOption) :=
  match x with
  | some p =>
    match readFile p with
    | .error e => .error e
    | .ok content => .ok [WithNameList (splitLines content)]
  | none => .ok []

/-- Conditional topic allow-list append, like the name allow-list. -/
def topicListOpts (readFile : String → Except String String) (x : Option String) :
    Except String (List RepositoryExecutorOption) :=
  match x with
  | some p =>
    match readFile p with
    | .error e => .error e
    | .ok content => .ok [WithTopicList (splitLines content)]
  | none => .ok []

/-- Conditional WithOutputFormat(JsonOutputFormat) append. -/
def jsonOpts (b : Bool) : List RepositoryExecutorOption :=
  if b then [WithOutputFormat JsonOutputFormat] else []

/-- The option list RunWithArgs assembles, in source order: base options,
then auth, org, user, name pattern, topic pattern, name allow-list file,
topic allow-list file, json; a file-read failure aborts with its error. -/
def runWithArgsOpts (compile : String → Except String Regexp)
    (readFile : String → Except String String) (args : Args) :
    Except String (List RepositoryExecutorOption) :=
  match nameListOpts readFile args.nameList with
  | .error e => .error e
  | .ok nlo =>
    match topicListOpts readFile args.topicList with
    | .error e => .error e
    | .ok tlo =>
      .ok (baseOpts args ++ authOpts args.authUser args.authToken ++
        orgOpts args.org ++ userOpts args.user ++
        nameExpOpts compile args.nameExp ++ topicExpOpts compile args.topicExp ++
        nlo ++ tlo ++ jsonOpts args.json)

/-- func RunWithArgs(args *Args) error, configuration part: assemble the
options, construct the executor (aborting on the first failing option), then
reject an empty command; on success hand (handler, command) to handler.Go. -/
def RunWithArgs (compile : String → Except String Regexp)
    (readFile : String → Except String String) (wd : String) (args : Args) :
    Except String (RepositoryExecutor × String) :=
  match runWithArgsOpts compile readFile args with
  | .error e => .error e
  | .ok opts =>
    match NewRepositoryExecutor wd opts with
    | .error e => .error e
    | .ok handler =>
      if args.command.length = 0 then .error "no command provided"
      else .ok (handler, args.command)

/-- An option that cannot change the credential fields. -/
def preservesAuth (o : RepositoryExecutorOption) : Prop :=
  ∀ c c', o c = .ok c' → c'.authUser = c.authUser ∧ c'.authToken = c.authToken

/-- The org / user / output-format / name-list / topic-list / name-pattern /
topic-pattern options leave the credential fields untouched. -/
theorem orgOpts_preservesAuth (x : Option String) :
    ∀ o ∈ orgOpts x, preservesAuth o := by
  cases x <;> simp only [orgOpts, List.mem_singleton, List.not_mem_nil] <;>
    intro o ho <;> first
    | exact absurd ho (by simp)
    | (subst ho; intro c c' h; cases h; exact ⟨rfl, rfl⟩)

/-- WithUser leaves the credential fields untouched. -/
theorem userOpts_preservesAuth (x : Option String) :
    ∀ o ∈ userOpts x, preservesAuth o := by
  cases x <;> simp only [userOpts, List.mem_singleton, List.not_mem_nil] <;>
    intro o ho <;> first
    | exact absurd ho (by simp)
    | (subst ho; intro c c' h; cases h; exact ⟨rfl, rfl⟩)

/-- WithNameRegexp leaves the credential fields untouched (whether or not
compilation succeeds). -/
theorem nameExpOpts_preservesAuth (compile : String → Except String Regexp)
    (x : Option String) : ∀ o ∈ nameExpOpts compile x, preservesAuth o := by
  cases x with
  | none => simp [nameExpOpts]
  | some e =>
    simp only [nameExpOpts, List.mem_singleton]
    intro o ho
    subst ho
    intro c c' h
    unfold WithNameRegexp at h
    cases hc : compile e with
    | error m => rw [hc] at h; cases h
    | ok re => rw [hc] at h; cases h; exact ⟨rfl, rfl⟩

/-- WithTopicRegexp leaves the credential fields untouched. -/
theorem topicExpOpts_preservesAuth (compile : String → Except String Regexp)
    (x : Option String) : ∀ o ∈ topicExpOpts compile x, preservesAuth o := by
  cases x with
  | none => simp [topicExpOpts]
  | some e =>
    simp only [topicExpOpts, List.mem_singleton]
    intro o ho
    subst ho
    intro c c' h
    unfold WithTopicRegexp at h
    cases hc : compile e with
    | error m => rw [hc] at h; cases h
    | ok re => rw [hc] at h; cases h; exact ⟨rfl, rfl⟩

/-- A successfully built name allow-list option preserves the credentials. -/
theorem nameListOpts_preservesAuth (readFile : String → Except String String)
    (x : Option String) (l : List RepositoryExecutorOption)
    (h : nameListOpts readFile x = .ok l) : ∀ o ∈ l, preservesAuth o := by
  cases x with
  | none =>
    unfold nameListOpts at h
    cases h
    simp
  | some p =>
    unfold nameListOpts at h
    dsimp only at h
    cases hr : readFile p with
    | error m => rw [hr] at h; cases h
    | ok content =>
      rw [hr] at h
      cases h
      simp only [List.mem_singleton]
      intro o ho
      subst ho
      intro c c' hc
      cases hc
      exact ⟨rfl, rfl⟩

/-- A successfully built topic allow-list option preserves the credentials. -/
theorem topicListOpts_preservesAuth (readFile : String → Except String String)
    (x : Option String) (l : List RepositoryExecutorOption)
    (h : topicListOpts readFile x = .ok l) : ∀ o ∈ l, preservesAuth o := by
  cases x with
  | none =>
    unfold topicListOpts at h
    cases h
    simp
  | some p =>
    unfold topicListOpts at h
    dsimp only at h
    cases hr : readFile p with
    | error m => rw [hr] at h; cases h
    | ok content =>
      rw [hr] at h
      cases h
      simp only [List.mem_singleton]
      intro o ho
      subst ho
      intro c c' hc
      cases hc
      exact ⟨rfl, rfl⟩

/-- WithOutputFormat leaves the credential fields untouched. -/
theorem jsonOpts_preservesAuth (b : Bool) : ∀ o ∈ jsonOpts b, preservesAuth o := by
  cases b <;> simp only [jsonOpts, if_true, if_false, List.mem_singleton, List.not_mem_nil] <;>
    intro o ho <;> first
    | exact absurd ho (by simp)
    | (subst ho; intro c c' h; cases h; exact ⟨rfl, rfl⟩)

/-- Applying a list of credential-preserving options preserves the
credential fields. -/
theorem applyOptions_preservesAuth (l : List RepositoryExecutorOption)
    (c c' : RepositoryExecutor) (h : ∀ o ∈ l, preservesAuth o)
    (happ : applyOptions l c = .ok c') :
    c'.authUser = c.authUser ∧ c'.authToken = c.authToken := by
  induction l generalizing c with
  | nil =>
    unfold applyOptions at happ
    cases happ
    exact ⟨rfl, rfl⟩
  | cons o rest ih =>
    unfold applyOptions at happ
    cases ho : o c with
    | error e => rw [ho] at happ; cases happ
    | ok c2 =>
      rw [ho] at happ
      obtain ⟨h1, h2⟩ := h o (List.mem_cons_self o rest) c c2 ho
      obtain ⟨h3, h4⟩ := ih c2 (fun o2 ho2 => h o2 (List.mem_cons_of_mem o ho2)) happ
      exact ⟨h3.trans h1, h4.trans h2⟩

/-- Shape of the assembled option list when both credentials are supplied:
the base options, then WithUserAuth with the TOKEN in both positions, then a
tail of options none of which can change the credential fields. -/
theorem runWithArgsOpts_shape (compile : String → Except String Regexp)
    (readFile : String → Except String String) (args : Args) (au tok : String)
    (opts : List RepositoryExecutorOption)
    (hau : args.authUser = some au) (hat : args.authToken = some tok)
    (hopts : runWithArgsOpts compile readFile args = .ok opts) :
    ∃ tail, opts = baseOpts args ++ WithUserAuth tok tok :: tail ∧
      ∀ o ∈ tail, preservesAuth o := by
  unfold runWithArgsOpts at hopts
  cases hnlo : nameListOpts readFile args.nameList with
  | error e => rw [hnlo] at hopts; cases hopts
  | ok nlo =>
    cases htlo : topicListOpts readFile args.topicList with
    | error e => rw [hnlo, htlo] at hopts; cases hopts
    | ok tlo =>
      rw [hnlo, htlo] at hopts
      cases hopts
      refine ⟨orgOpts args.org ++ userOpts args.user ++
          nameExpOpts compile args.nameExp ++ topicExpOpts compile args.topicExp ++
          nlo ++ tlo ++ jsonOpts args.json, ?_, ?_⟩
      · rw [hau, hat]
        simp [authOpts, List.append_assoc]
      · intro o ho
        simp only [List.mem_append] at ho
        rcases ho with ((((((ho | ho) | ho) | ho) | ho) | ho) | ho)
        · exact orgOpts_preservesAuth args.org o ho
        · exact userOpts_preservesAuth args.user o ho
        · exact nameExpOpts_preservesAuth compile args.nameExp o ho
        · exact topicExpOpts_preservesAuth compile args.topicExp o ho
        · exact nameListOpts_preservesAuth readFile args.nameList nlo hnlo o ho
        · exact topicListOpts_preservesAuth readFile args.topicList tlo htlo o ho
        · exact jsonOpts_preservesAuth args.json o ho

/-- C10: when both an auth user and an auth token are parsed, RunWithArgs
passes the TOKEN as both arguments of WithUserAuth, so the built executor
carries the token as credential username and as credential token; the
supplied auth-user value is never installed (whenever it differs from the
token, the credential username is not it); clone authentication therefore
uses the token string as its BasicAuth username; and authenticated-caller
discovery can only be selected when the configured named user equals the
token string. -/
theorem runWithArgs_token_as_username (compile : String → Except String Regexp)
    (readFile : String → Except String String) (wd : String) (args : Args)
    (au tok : String) (rh : RepositoryExecutor) (cmd : String)
    (hau : args.authUser = some au) (hat : args.authToken = some tok)
    (hrun : RunWithArgs compile readFile wd args = .ok (rh, cmd)) :
    rh.authUser = some tok ∧ rh.authToken = some tok ∧
      (au ≠ tok → rh.authUser ≠ some au) ∧
      cloneRepoAuth rh = some { username := tok, password := tok } ∧
      (getRepositories rh = .authenticatedUserListing → rh.user = some tok) := by
  unfold RunWithArgs at hrun
  cases hopts : runWithArgsOpts compile readFile args with
  | error e => rw [hopts] at hrun; cases hrun
  | ok opts =>
    rw [hopts] at hrun
    dsimp only at hrun
    cases hnew : NewRepositoryExecutor wd opts with
    | error e => rw [hnew] at hrun; cases hrun
    | ok handler =>
      rw [hnew] at hrun
      dsimp only at hrun
      have hrh : handler = rh := by
        by_cases hcmd : args.command.length = 0
        · rw [if_pos hcmd] at hrun; cases hrun
        · rw [if_neg hcmd] at hrun; cases hrun; rfl
      subst hrh
      obtain ⟨tail, hshape, htail⟩ :=
        runWithArgsOpts_shape compile readFile args au tok opts hau hat hopts
      rw [hshape] at hnew
      unfold NewRepositoryExecutor at hnew
      rw [applyOptions_append] at hnew
      obtain ⟨cb, hcb⟩ : ∃ cb, applyOptions (baseOpts args) (defaultExecutor wd) = .ok cb :=
        ⟨_, rfl⟩
      rw [hcb] at hnew
      unfold applyOptions WithUserAuth at hnew
      obtain ⟨h1, h2⟩ := applyOptions_preservesAuth tail _ _ htail hnew
      refine ⟨h1, h2, ?_, ?_, ?_⟩
      · intro hne heq
        rw [h1] at heq
        exact hne (Option.some.inj heq).symm
      · simp [cloneRepoAuth, h1, h2]
      · intro hauth
        unfold getRepositories at hauth
        cases horg : handler.org with
        | some o => rw [horg] at hauth; simp at hauth
        | none =>
          rw [horg] at hauth
          dsimp only at hauth
          by_cases hcond : (handler.authUser.isSome && handler.authToken.isSome
              && handler.user.isSome && handler.authUser == handler.user) = true
          · have hc := hcond
            simp only [Bool.and_eq_true, beq_iff_eq] at hc
            rw [← hc.2, h1]
          · rw [Bool.not_eq_true] at hcond
            rw [hcond] at hauth
            cases hu : handler.user with
            | some u => rw [hu] at hauth; simp at hauth
            | none => rw [hu] at hauth; simp at hauth

/-- Concrete arguments for the C10 witness: auth user alice, token tok123. -/
def argsWit : Args := { command := "ls", authUser := some "alice", authToken := some "tok123" }

/-- Regexp compiler oracle for the C10 witness (never consulted: no pattern
filters are configured). -/
def compileWit : String → Except String Regexp :=
  fun _ => .ok { matchString := fun _ => true }

/-- File oracle for the C10 witness (never consulted: no list filters). -/
def readFileWit : String → Except String String :=
  fun p => .error ("open " ++ p ++ ": no such file or directory")

/-- The executor RunWithArgs builds for the witness arguments. -/
def rhWit : RepositoryExecutor :=
  { client := some "tok123", authUser := some "tok123", authToken := some "tok123"
    tmpDir := "./tmp", concurrency := 1, shellPath := "/bin/sh" }

/-- Witness for C10: for the concrete arguments, the built executor carries
tok123 — not alice — as credential username, clone auth uses tok123 twice,
and authenticated-caller discovery would require user = tok123. -/
theorem runWithArgs_token_as_username_witness :
    rhWit.authUser = some "tok123" ∧ rhWit.authToken = some "tok123" ∧
      ("alice" ≠ "tok123" → rhWit.authUser ≠ some "alice") ∧
      cloneRepoAuth rhWit = some { username := "tok123", password := "tok123" } ∧
      (getRepositories rhWit = .authenticatedUserListing → rhWit.user = some "tok123") :=
  runWithArgs_token_as_username compileWit readFileWit "/home" argsWit "alice" "tok123"
    rhWit "ls" rfl rfl rfl

end Ghforeach
